import Mathlib

/-!
Verification of the log-compaction and snapshot-merging core of
`libsql-server/src/replication/snapshot.rs`.

The Rust source is shallowly embedded: machine integers (`u32`, `u64`,
`u128`) are modelled as `Nat`, with the `u64::MAX` sentinel of the builder
made explicit and `u64` wrapping arithmetic written as an explicit
`% 2 ^ 64` where the source can overflow.  File names are modelled as
`List Char`, directories as lists of entries, and fallible or panicking
code returns `Option` / `Except` / an explicit `panic` constructor.
-/

/-- Constant `SNAPHOT_SPACE_AMPLIFICATION_FACTOR : u64 = 2` from the source. -/
def SNAPHOT_SPACE_AMPLIFICATION_FACTOR : Nat := 2

/-- Constant `MAX_SNAPSHOT_NUMBER : usize = 32` from the source. -/
def MAX_SNAPSHOT_NUMBER : Nat := 32

/-- Value of `u64::MAX`, the initial `last_seen_frame_no` and
`start_frame_no` of a fresh `SnapshotBuilder`. -/
def U64_MAX : Nat := 2 ^ 64 - 1

/-- Modulus of `u64` arithmetic. -/
def U64_MOD : Nat := 2 ^ 64

/-- Wrapping `u64` addition (release-mode overflow semantics of the `+`
used by `Iterator::sum::<u64>()` in `should_compact`). -/
def u64_add (a b : Nat) : Nat := (a + b) % U64_MOD

/-- Wrapping `u64` multiplication, used for
`SNAPHOT_SPACE_AMPLIFICATION_FACTOR * db_page_count as u64`. -/
def u64_mul (a b : Nat) : Nat := (a * b) % U64_MOD

/-- Header of one WAL frame, as far as the snapshot code reads it:
`frame_no : u64`, `page_no : u32`, `size_after : u32`.  The page payload is
irrelevant to every property considered here and is omitted. -/
structure Frame where
  frame_no : Nat
  page_no : Nat
  size_after : Nat
deriving DecidableEq, Repr

/-- The `SnapshotFileHeader` struct (`log_id : u128`, `start_frame_no : u64`,
`end_frame_no : u64`, `frame_count : u64`, `size_after : u32`; the `_pad`
field carries no information and is omitted). -/
structure SnapshotFileHeader where
  log_id : Nat
  start_frame_no : Nat
  end_frame_no : Nat
  frame_count : Nat
  size_after : Nat
deriving DecidableEq, Repr

/-- Contents of a finished snapshot file: the header followed by the frames
written after it. -/
structure SnapshotFile where
  header : SnapshotFileHeader
  frames : List Frame
deriving DecidableEq, Repr

/-- State of `SnapshotBuilder`: the `seen_pages : HashSet<u32>` is modelled
as a `Finset Nat`, and the frames already written to the temp file (after
the reserved header space) as a list. -/
structure SnapshotBuilder where
  seen_pages : Finset Nat
  header : SnapshotFileHeader
  written : List Frame
  last_seen_frame_no : Nat
deriving DecidableEq

/-- `SnapshotBuilder::new`: empty page set, header initialised with
`start_frame_no = u64::MAX`, `end_frame_no = u64::MIN = 0`,
`frame_count = 0`, `size_after = 0`, and `last_seen_frame_no = u64::MAX`. -/
def SnapshotBuilder.new (log_id : Nat) : SnapshotBuilder where
  seen_pages := ∅
  header :=
    { log_id := log_id
      start_frame_no := U64_MAX
      end_frame_no := 0
      frame_count := 0
      size_after := 0 }
  written := []
  last_seen_frame_no := U64_MAX

/-- One iteration of the loop in `SnapshotBuilder::append_frames`.  The
`assert!(frame.header().frame_no < self.last_seen_frame_no)` is modelled by
returning `none` (a panic) when it fails.  Otherwise, in source order:
update `last_seen_frame_no`, lower `start_frame_no`, raise `end_frame_no`
together with `size_after` (on `frame_no >= end_frame_no`), zero the
frame's own `size_after`, and write the frame unless its page was seen. -/
def SnapshotBuilder.appendFrame (b : SnapshotBuilder) (f : Frame) :
    Option SnapshotBuilder :=
  if f.frame_no < b.last_seen_frame_no then
    let hdr := b.header
    let hdr :=
      if f.frame_no < hdr.start_frame_no then
        { hdr with start_frame_no := f.frame_no }
      else hdr
    let hdr :=
      if f.frame_no ≥ hdr.end_frame_no then
        { hdr with end_frame_no := f.frame_no, size_after := f.size_after }
      else hdr
    if f.page_no ∈ b.seen_pages then
      some { b with header := hdr, last_seen_frame_no := f.frame_no }
    else
      some
        { seen_pages := insert f.page_no b.seen_pages
          header := { hdr with frame_count := hdr.frame_count + 1 }
          written := b.written ++ [{ f with size_after := 0 }]
          last_seen_frame_no := f.frame_no }
  else
    none

/-- `SnapshotBuilder::append_frames` over a whole stream, presented as a
list. -/
def SnapshotBuilder.appendFrames (b : SnapshotBuilder) :
    List Frame → Option SnapshotBuilder
  | [] => some b
  | f :: fs =>
    match b.appendFrame f with
    | some b' => b'.appendFrames fs
    | none => none

/-- A sequence of `append_frames` calls on the same builder. -/
def SnapshotBuilder.appendMany (b : SnapshotBuilder) :
    List (List Frame) → Option SnapshotBuilder
  | [] => some b
  | l :: ls =>
    match b.appendFrames l with
    | some b' => b'.appendMany ls
    | none => none

/-- Specification of the frames that `append_frames` writes: the first
frame of each not-yet-seen page, with its `size_after` zeroed, in stream
order. -/
def snapNew (seen : Finset Nat) : List Frame → List Frame
  | [] => []
  | f :: fs =>
    if f.page_no ∈ seen then snapNew seen fs
    else { f with size_after := 0 } :: snapNew (insert f.page_no seen) fs

/-- Set of page numbers occurring in a frame list. -/
def framePages (fs : List Frame) : Finset Nat := (fs.map Frame.page_no).toFinset

/-! ### Snapshot names

The source formats names with
`format!("{}-{}-{}.snap", Uuid::from_u128(log_id), start, end)` and parses
them with the regex
`(\w{8}-\w{4}-\w{4}-\w{4}-\w{12})-(\d*)-(\d*).snap`
(free-spacing, unanchored, `.` an unescaped wildcard), followed by
`Uuid::from_str(..).unwrap()` and `str::parse::<u64>(..).unwrap()` on the
captures.  Character classes are modelled by their ASCII restrictions (the
Unicode and ASCII classes agree on every input considered here). -/

/-- Decimal digits, in value order. -/
def digitChars : List Char := ("0123456789").toList

/-- Lowercase hexadecimal digits, in value order. -/
def hexChars : List Char := digitChars ++ ("abcdef").toList

/-- Hex digit for a nibble (as `uuid` renders them: lowercase). -/
def hexDigitChar (n : Nat) : Char := hexChars.getD n '0'

/-- Decimal digit character for `n < 10`. -/
def decDigitChar (n : Nat) : Char := digitChars.getD n '0'

/-- Decimal rendering helper with explicit fuel (the fuel `n + 1` always
suffices). -/
def decCharsAux : Nat → Nat → List Char → List Char
  | 0, _, acc => acc
  | fuel + 1, n, acc =>
    if n < 10 then decDigitChar n :: acc
    else decCharsAux fuel (n / 10) (decDigitChar (n % 10) :: acc)

/-- Decimal rendering of a natural number, as Rust's `Display` for `u64`
produces it. -/
def natToDecChars (n : Nat) : List Char := decCharsAux (n + 1) n []

/-- Nibble `i` (big-endian, `i < 32`) of a 128-bit value. -/
def uuidNibble (n i : Nat) : Nat := n / 16 ^ (31 - i) % 16

/-- Hyphenated lowercase rendering of `Uuid::from_u128 n`
(8-4-4-4-12 hex digits). -/
def uuidChars (n : Nat) : List Char :=
  ((List.range 8).map fun i => hexDigitChar (uuidNibble n i)) ++
    '-' :: ((List.range 4).map fun i => hexDigitChar (uuidNibble n (8 + i))) ++
    '-' :: ((List.range 4).map fun i => hexDigitChar (uuidNibble n (12 + i))) ++
    '-' :: ((List.range 4).map fun i => hexDigitChar (uuidNibble n (16 + i))) ++
    '-' :: ((List.range 12).map fun i => hexDigitChar (uuidNibble n (20 + i)))

/-- The snapshot name built in `SnapshotBuilder::finish`:
`format!("{}-{}-{}.snap", Uuid::from_u128(log_id), start, end)`. -/
def format_snapshot_name (log_id start_fno end_fno : Nat) : List Char :=
  uuidChars log_id ++ '-' :: natToDecChars start_fno ++
    '-' :: natToDecChars end_fno ++ ".snap".toList

/-- ASCII restriction of the regex class `\w`. -/
def isWordChar (c : Char) : Bool := c.isAlphanum || c == '_'

/-- Take exactly `n` word characters from the front. -/
def takeWordChars : Nat → List Char → Option (List Char × List Char)
  | 0, cs => some ([], cs)
  | _ + 1, [] => none
  | n + 1, c :: cs =>
    if isWordChar c then
      match takeWordChars n cs with
      | some (w, rest) => some (c :: w, rest)
      | none => none
    else none

/-- Consume one expected literal character. -/
def expectChar (c : Char) : List Char → Option (List Char)
  | [] => none
  | x :: xs => if x = c then some xs else none

/-- Match the first capture group
`(\w{8}-\w{4}-\w{4}-\w{4}-\w{12})` at the current position, returning the
captured characters and the rest. -/
def matchUuidGroup (cs : List Char) : Option (List Char × List Char) := do
  let (a, cs) ← takeWordChars 8 cs
  let cs ← expectChar '-' cs
  let b ← takeWordChars 4 cs
  let cs ← expectChar '-' b.2
  let c ← takeWordChars 4 cs
  let cs ← expectChar '-' c.2
  let d ← takeWordChars 4 cs
  let cs ← expectChar '-' d.2
  let (e, cs) ← takeWordChars 12 cs
  pure (a ++ '-' :: b.1 ++ '-' :: c.1 ++ '-' :: d.1 ++ '-' :: e, cs)

/-- Maximal run of decimal digits at the front (greedy `\d*`). -/
def digitRun : List Char → List Char × List Char
  | [] => ([], [])
  | c :: cs =>
    if c.isDigit then
      let (d, r) := digitRun cs
      (c :: d, r)
    else ([], c :: cs)

/-- Literal `snap` of the pattern. -/
def snapLit : List Char := ("snap").toList

/-- Check the pattern suffix `.snap` at the current position: one arbitrary
character (the unescaped `.`, which matches anything but a newline)
followed by the literal `snap`. -/
def checkDotSnap : List Char → Bool
  | [] => false
  | c :: rest => (c != '\n') && snapLit.isPrefixOf rest

/-- Backtracking for the greedy third capture `(\d*).snap`: starting from
the maximal digit run (held reversed in `capRev`), give digits back one at
a time until `.snap` matches; return the capture kept. -/
def tailSearch : List Char → List Char → Option (List Char)
  | [], after => if checkDotSnap after then some [] else none
  | c :: capRev, after =>
    if checkDotSnap after then some (c :: capRev).reverse
    else tailSearch capRev (c :: after)

/-- Match the whole pattern at the current position, returning the three
captures.  After the fixed-shape first group and each literal `-`, the
greedy `\d*` runs are deterministic (a shorter run would put a digit where
the literal `-` must be), so only the final `(\d*).snap` backtracks. -/
def matchAt (cs : List Char) : Option (List Char × List Char × List Char) := do
  let (g1, rest) ← matchUuidGroup cs
  let rest ← expectChar '-' rest
  let (d2, rest) := digitRun rest
  let rest ← expectChar '-' rest
  let (d3, rest) := digitRun rest
  let g3 ← tailSearch d3.reverse rest
  pure (g1, d2, g3)

/-- Unanchored leftmost search of `Regex::captures`: try each start
position in order and keep the first match. -/
def regexFind : List Char → Option (List Char × List Char × List Char)
  | [] => none
  | c :: cs =>
    match matchAt (c :: cs) with
    | some r => some r
    | none => regexFind cs

/-- Value of a hexadecimal digit, as `Uuid::from_str` accepts them
(case-insensitive). -/
def hexVal? (c : Char) : Option Nat :=
  if c.isDigit then some (c.toNat - 48)
  else if c.toNat ≥ 97 ∧ c.toNat ≤ 102 then some (c.toNat - 87)
  else if c.toNat ≥ 65 ∧ c.toNat ≤ 70 then some (c.toNat - 55)
  else none

/-- Fold of `Uuid::from_str` over a 36-character hyphenated candidate:
hyphens are required at positions 8, 13, 18 and 23 and the remaining 32
characters must be hex digits. -/
def uuidFold? : List Char → Nat → Nat → Option Nat
  | [], _, acc => some acc
  | c :: cs, i, acc =>
    if i = 8 ∨ i = 13 ∨ i = 18 ∨ i = 23 then
      if c = '-' then uuidFold? cs (i + 1) acc else none
    else
      match hexVal? c with
      | some v => uuidFold? cs (i + 1) (acc * 16 + v)
      | none => none

/-- `Uuid::from_str` on the first capture.  The full Rust parser also
accepts other shapes (simple, braced, URN), but the capture always has the
36-character hyphenated shape, on which `from_str` behaves as modelled. -/
def uuidFromChars? (cs : List Char) : Option Nat :=
  if cs.length = 36 then uuidFold? cs 0 0 else none

/-- `str::parse::<u64>` on a capture of `(\d*)`: fails on the empty string
and on values exceeding `u64::MAX` (the captures contain only digits). -/
def decFromChars? (cs : List Char) : Option Nat :=
  match cs with
  | [] => none
  | _ :: _ =>
    let v := cs.foldl (fun acc c => acc * 10 + (c.toNat - '0'.toNat)) 0
    if v < U64_MOD then some v else none

/-- Outcome of `parse_snapshot_name`: a parsed triple, no regex match
(`None`), or a panic of one of the `unwrap()` calls on the captures. -/
inductive ParseResult where
  | ok (log_id start_frame_no end_frame_no : Nat)
  | noMatch
  | panic
deriving DecidableEq, Repr

/-- The function `parse_snapshot_name`: run the regex; on no match return
`None`; on a match, `unwrap()` the UUID and the two integer parses, each of
which can panic. -/
def parse_snapshot_name (name : List Char) : ParseResult :=
  match regexFind name with
  | none => .noMatch
  | some (g1, g2, g3) =>
    match uuidFromChars? g1, decFromChars? g2, decFromChars? g3 with
    | some u, some s, some e => .ok u s e
    | _, _, _ => .panic

/-! ### Remaining operations of the source file -/

/-- `SnapshotBuilder::finish`: the header is written into the reserved
prefix, the canonical name is computed from the header fields, and the temp
file is renamed to that name.  The returned triple is
`(snapshot_name, frame_count, size_after)`; the second component is the
resulting file contents. -/
def SnapshotBuilder.finish (b : SnapshotBuilder) :
    (List Char × Nat × Nat) × SnapshotFile :=
  ((format_snapshot_name b.header.log_id b.header.start_frame_no
      b.header.end_frame_no,
    b.header.frame_count, b.header.size_after),
   ⟨b.header, b.written⟩)

/-- `SnapshotMerger::should_compact`: the `u64` sum of the frame counts
reaches `SNAPHOT_SPACE_AMPLIFICATION_FACTOR * db_page_count as u64`, or
more than `MAX_SNAPSHOT_NUMBER` snapshots are registered. -/
def should_compact (snapshots : List (List Char × Nat)) (db_page_count : Nat) :
    Bool :=
  let snapshots_size := (snapshots.map fun p => p.2).foldl u64_add 0
  decide (snapshots_size ≥ u64_mul SNAPHOT_SPACE_AMPLIFICATION_FACTOR db_page_count)
    || decide (snapshots.length > MAX_SNAPSHOT_NUMBER)

/-- Outcome of a filesystem-facing operation: a value, a propagated I/O
error, or a panic of the process. -/
inductive FsResult (α : Type) where
  | ok (a : α)
  | ioError
  | panicked
deriving DecidableEq, Repr

/-- The stream `snapshot_list(db_path)`.  A directory is modelled as
`Option (List name)`, `none` when it does not exist, in which case
`tokio::fs::read_dir` fails and the `try_stream!` yields that error as its
first item. -/
def snapshot_list : Option (List (List Char)) → Except Unit (List (List Char))
  | none => .error ()
  | some names => .ok names

/-- Loop body of `find_snapshot_file`: parse each name (a panic of
`parse_snapshot_name` aborts), skip non-matches, and return the first name
whose `start_frame_no..=end_frame_no` contains `frame_no`.
`SnapshotFile::open` on the found entry is modelled as returning the
entry. -/
def findLoop : List (List Char) → Nat → FsResult (Option (List Char))
  | [], _ => .ok none
  | n :: rest, fno =>
    match parse_snapshot_name n with
    | .panic => .panicked
    | .noMatch => findLoop rest fno
    | .ok _ s e =>
      if s ≤ fno ∧ fno ≤ e then .ok (some n) else findLoop rest fno

/-- The function `find_snapshot_file(db_path, frame_no)`: enumerate the
snapshot directory (errors, in particular a missing directory, propagate
through `transpose()?`) and scan for a covering name. -/
def find_snapshot_file (dir : Option (List (List Char))) (frame_no : Nat) :
    FsResult (Option (List Char)) :=
  match snapshot_list dir with
  | .error _ => .ioError
  | .ok names => findLoop names frame_no

/-- Modelled from the spec: a `to_compact/` directory entry as
`pending_snapshots_list` inspects it.  `LogFile` and `LogFileHeader` are
outside the given sources; per the spec, `LogFile::new` exposes a header
with a `start_frame_no`, recorded here as `log_start_frame_no`, and the
header size `sizeof::<LogFileHeader>()` is kept abstract as a parameter. -/
structure DirEntry where
  path : List Char
  is_file : Bool
  size : Nat
  log_start_frame_no : Nat
deriving DecidableEq, Repr

/-- Comparison by the second component, the key
`|(log, _)| log.header().start_frame_no` of the source's sort. -/
def byStartLe (a b : List Char × Nat) : Prop := a.2 ≤ b.2

instance : DecidableRel byStartLe := fun a b => Nat.decLe a.2 b.2

instance : IsTotal (List Char × Nat) byStartLe := ⟨fun a b => Nat.le_total a.2 b.2⟩

instance : IsTrans (List Char × Nat) byStartLe := ⟨fun _ _ _ => Nat.le_trans⟩

/-- The function `pending_snapshots_list(compact_queue_dir)`: skip
non-files; delete (and skip) files whose size is exactly the log-header
size; open every other file as a log and keep `(path, start_frame_no)`;
finally sort by `start_frame_no` ascending.  The second component of the
result is the list of deleted paths. -/
def pending_snapshots_list (hdrSize : Nat) (entries : List DirEntry) :
    List (List Char × Nat) × List (List Char) :=
  let scan := entries.foldl
    (fun acc e =>
      if e.is_file then
        if e.size = hdrSize then (acc.1, acc.2 ++ [e.path])
        else (acc.1 ++ [(e.path, e.log_start_frame_no)], acc.2)
      else acc)
    (([], []) : List (List Char × Nat) × List (List Char))
  (List.insertionSort byStartLe scan.1, scan.2)

/-- Failure modes of `SnapshotMerger::merge_snapshots`: an I/O error
opening an input snapshot, the builder's ordering assertion, the
`parse_snapshot_name(..).unwrap()` calls, the `snapshots[0]` index on an
empty input, and `size_after.unwrap()`. -/
inductive MergeError where
  | ioError
  | assertPanic
  | parsePanic
  | indexPanic
  | unwrapPanic
deriving DecidableEq, Repr

/-- Externally visible filesystem effects of a merge: the rename that
publishes the merged snapshot, and the removal of an input snapshot. -/
inductive FsEvent where
  | rename (name : List Char)
  | removeFile (name : List Char)
deriving DecidableEq, Repr

/-- Lookup of a snapshot file by name in the snapshot directory, for
`SnapshotFile::open`. -/
def lookupStore (store : List (List Char × SnapshotFile)) (name : List Char) :
    Option SnapshotFile :=
  match store with
  | [] => none
  | (n, f) :: rest => if n = name then some f else lookupStore rest name

/-- Loop of `merge_snapshots` over `snapshots.iter().rev()`: open each
snapshot, record the first `size_after` seen
(`size_after.replace(..)` when still `None`), and feed the snapshot's
frames to the builder. -/
def mergeLoop (store : List (List Char × SnapshotFile)) :
    List (List Char × Nat) → Option Nat → SnapshotBuilder →
    Except MergeError (Option Nat × SnapshotBuilder)
  | [], sa?, b => .ok (sa?, b)
  | (name, _) :: rest, sa?, b =>
    match lookupStore store name with
    | none => .error .ioError
    | some file =>
      let sa? := match sa? with
        | none => some file.header.size_after
        | some v => some v
      match b.appendFrames file.frames with
      | none => .error .assertPanic
      | some b' => mergeLoop store rest sa? b'

/-- The function `SnapshotMerger::merge_snapshots(snapshots, db_path,
log_id)`: build a fresh builder, append all input snapshots newest-first,
parse `snapshots[0]` and `snapshots.last()` names (both `unwrap()`ed),
overwrite the builder header's `start_frame_no` / `end_frame_no` /
`size_after`, `finish` (whose rename publishes the merged snapshot), then
remove every input file.  Returns `(merged_name, merged_frame_count)`, the
merged file, and the ordered list of filesystem events. -/
def merge_snapshots (store : List (List Char × SnapshotFile))
    (snapshots : List (List Char × Nat)) (log_id : Nat) :
    Except MergeError ((List Char × Nat) × SnapshotFile × List FsEvent) :=
  match snapshots with
  | [] => .error .indexPanic
  | first :: _ =>
    match mergeLoop store snapshots.reverse none (SnapshotBuilder.new log_id) with
    | .error e => .error e
    | .ok (sa?, b) =>
      match parse_snapshot_name first.1,
          parse_snapshot_name (snapshots.getLastD first).1 with
      | .ok _ s _, .ok _ _ e =>
        match sa? with
        | none => .error .unwrapPanic
        | some sa =>
          let b :=
            { b with
              header :=
                { b.header with
                  start_frame_no := s, end_frame_no := e, size_after := sa } }
          .ok ((b.finish.1.1, b.finish.1.2.1), b.finish.2,
            FsEvent.rename b.finish.1.1 ::
              snapshots.map fun p => FsEvent.removeFile p.1)
      | _, _ => .error .parsePanic

/-! ### Builder lemmas -/

/-- The builder's ordering assertion is the only failure of one step. -/
theorem appendFrame_none_iff (b : SnapshotBuilder) (f : Frame) :
    b.appendFrame f = none ↔ ¬ f.frame_no < b.last_seen_frame_no := by
  unfold SnapshotBuilder.appendFrame
  split_ifs with h1 h2 <;> simp [h1]

/-- Effect of one accepted `append_frames` iteration on every component of
the builder state. -/
theorem appendFrame_some_spec {b b' : SnapshotBuilder} {f : Frame}
    (h : b.appendFrame f = some b') :
    b'.last_seen_frame_no = f.frame_no ∧
    b'.header.log_id = b.header.log_id ∧
    b'.header.start_frame_no = min b.header.start_frame_no f.frame_no ∧
    b'.header.end_frame_no = max b.header.end_frame_no f.frame_no ∧
    b'.header.size_after =
      (if b.header.end_frame_no ≤ f.frame_no then f.size_after
       else b.header.size_after) ∧
    b'.seen_pages = insert f.page_no b.seen_pages ∧
    b'.written = b.written ++
      (if f.page_no ∈ b.seen_pages then []
       else [{ f with size_after := 0 }]) ∧
    b'.header.frame_count = b.header.frame_count +
      (if f.page_no ∈ b.seen_pages then 0 else 1) := by
  simp only [SnapshotBuilder.appendFrame] at h
  split_ifs at h with h1 h2 h3 h4 h5 h6 h7 h8 <;>
    simp only [Option.some.injEq] at h <;> subst h <;>
    refine ⟨rfl, rfl, ?_, ?_, ?_, ?_, ?_, ?_⟩ <;>
    first
      | rfl
      | (exact (Finset.insert_eq_self.mpr (by assumption)).symm)
      | (simp_all [Nat.min_def, Nat.max_def] <;>
          first
            | rfl
            | omega
            | (split_ifs <;> first | rfl | omega))

/-- Pages of a cons. -/
theorem framePages_cons (f : Frame) (fs : List Frame) :
    framePages (f :: fs) = insert f.page_no (framePages fs) := by
  simp [framePages]

/-- Effect of a whole accepted `append_frames` call on the builder state,
except for the order-sensitive `end_frame_no` / `size_after` pair. -/
theorem appendFrames_some_spec :
    ∀ (fs : List Frame) (b b' : SnapshotBuilder),
      b.appendFrames fs = some b' →
      b'.header.log_id = b.header.log_id ∧
      b'.seen_pages = b.seen_pages ∪ framePages fs ∧
      b'.written = b.written ++ snapNew b.seen_pages fs ∧
      b'.header.frame_count =
        b.header.frame_count + (snapNew b.seen_pages fs).length ∧
      b'.header.start_frame_no =
        (fs.map Frame.frame_no).foldl min b.header.start_frame_no ∧
      b'.last_seen_frame_no =
        (fs.map Frame.frame_no).getLastD b.last_seen_frame_no
  | [], b, b', h => by
    cases h
    simp [framePages, snapNew]
  | f :: fs, b, b', h => by
    rw [SnapshotBuilder.appendFrames] at h
    cases happ : b.appendFrame f with
    | none => rw [happ] at h; cases h
    | some b1 =>
      rw [happ] at h
      obtain ⟨hls, hlog, hstart, _, _, hseen, hwritten, hcount⟩ :=
        appendFrame_some_spec happ
      obtain ⟨ihlog, ihseen, ihwritten, ihcount, ihstart, ihls⟩ :=
        appendFrames_some_spec fs b1 b' h
      refine ⟨?_, ?_, ?_, ?_, ?_, ?_⟩
      · rw [ihlog, hlog]
      · rw [ihseen, hseen, framePages_cons, Finset.insert_union,
          Finset.union_insert]
      · rw [ihwritten, hwritten, hseen]
        by_cases hp : f.page_no ∈ b.seen_pages
        · simp [snapNew, hp, Finset.insert_eq_self.mpr hp]
        · simp [snapNew, hp]
      · rw [ihcount, hcount, hseen]
        by_cases hp : f.page_no ∈ b.seen_pages
        · simp [snapNew, hp, Finset.insert_eq_self.mpr hp]
        · simp [snapNew, hp]
          omega
      · rw [ihstart, hstart, List.map_cons, List.foldl_cons]
      · rw [ihls, hls, List.map_cons, List.getLastD_cons]

/-- The `append_frames` loop accepts a stream exactly when its frame
numbers descend strictly from the builder's `last_seen_frame_no`. -/
theorem appendFrames_isSome_iff :
    ∀ (fs : List Frame) (b : SnapshotBuilder),
      (b.appendFrames fs).isSome ↔
        List.Chain (fun x y => y < x) b.last_seen_frame_no
          (fs.map Frame.frame_no)
  | [], b => by simp [SnapshotBuilder.appendFrames]
  | f :: fs, b => by
    rw [SnapshotBuilder.appendFrames]
    cases happ : b.appendFrame f with
    | none =>
      have hnlt := (appendFrame_none_iff b f).mp happ
      simp [List.chain_cons, hnlt]
    | some b1 =>
      have hlt : f.frame_no < b.last_seen_frame_no := by
        by_contra hc
        rw [(appendFrame_none_iff b f).mpr hc] at happ
        cases happ
      have hls := (appendFrame_some_spec happ).1
      rw [List.map_cons, List.chain_cons]
      constructor
      · intro hsome
        exact ⟨hlt, by
          have := (appendFrames_isSome_iff fs b1).mp hsome
          rwa [hls] at this⟩
      · intro hch
        exact (appendFrames_isSome_iff fs b1).mpr (by rw [hls]; exact hch.2)

/-- When every appended frame stays below the current `end_frame_no`,
neither `end_frame_no` nor `size_after` moves. -/
theorem appendFrames_end_of_lt :
    ∀ (fs : List Frame) (b b' : SnapshotBuilder),
      b.appendFrames fs = some b' →
      (∀ f ∈ fs, f.frame_no < b.header.end_frame_no) →
      b'.header.end_frame_no = b.header.end_frame_no ∧
      b'.header.size_after = b.header.size_after
  | [], b, b', h, _ => by cases h; exact ⟨rfl, rfl⟩
  | f :: fs, b, b', h, hlt => by
    rw [SnapshotBuilder.appendFrames] at h
    cases happ : b.appendFrame f with
    | none => rw [happ] at h; cases h
    | some b1 =>
      rw [happ] at h
      obtain ⟨_, _, _, hend, hsize, _, _, _⟩ := appendFrame_some_spec happ
      have hf := hlt f (List.mem_cons_self f fs)
      have hend1 : b1.header.end_frame_no = b.header.end_frame_no := by
        rw [hend]; omega
      have hsize1 : b1.header.size_after = b.header.size_after := by
        rw [hsize, if_neg (by omega)]
      have ih := appendFrames_end_of_lt fs b1 b' h (fun g hg => by
        rw [hend1]; exact hlt g (List.mem_cons_of_mem f hg))
      exact ⟨ih.1.trans hend1, ih.2.trans hsize1⟩

/-- The head of a descending accepted stream fixes `end_frame_no` and
`size_after`. -/
theorem appendFrames_end_head (f : Frame) (fs : List Frame)
    (b b' : SnapshotBuilder) (h : b.appendFrames (f :: fs) = some b')
    (hge : b.header.end_frame_no ≤ f.frame_no)
    (hdec : ∀ g ∈ fs, g.frame_no < f.frame_no) :
    b'.header.end_frame_no = f.frame_no ∧
    b'.header.size_after = f.size_after := by
  rw [SnapshotBuilder.appendFrames] at h
  cases happ : b.appendFrame f with
  | none => rw [happ] at h; cases h
  | some b1 =>
    rw [happ] at h
    obtain ⟨_, _, _, hend, hsize, _, _, _⟩ := appendFrame_some_spec happ
    have hend1 : b1.header.end_frame_no = f.frame_no := by rw [hend]; omega
    have hsize1 : b1.header.size_after = f.size_after := by
      rw [hsize, if_pos hge]
    have ih := appendFrames_end_of_lt fs b1 b' h (fun g hg => by
      rw [hend1]; exact hdec g hg)
    exact ⟨ih.1.trans hend1, ih.2.trans hsize1⟩

/-! ### Lemmas about the written-frame specification `snapNew` -/

/-- The written frames form a sublist of the (zeroed) input stream. -/
theorem snapNew_sublist :
    ∀ (fs : List Frame) (seen : Finset Nat),
      List.Sublist (snapNew seen fs)
        (fs.map fun f => { f with size_after := 0 })
  | [], _ => by simp [snapNew]
  | f :: fs, seen => by
    rw [snapNew, List.map_cons]
    by_cases hp : f.page_no ∈ seen
    · simpa [hp] using (snapNew_sublist fs seen).cons _
    · simpa [hp] using
        (snapNew_sublist fs (insert f.page_no seen)).cons₂
          { f with size_after := 0 }

/-- Nothing written carries an already-seen page. -/
theorem snapNew_page_not_seen :
    ∀ (fs : List Frame) (seen : Finset Nat),
      ∀ g ∈ snapNew seen fs, g.page_no ∉ seen
  | [], _ => by simp [snapNew]
  | f :: fs, seen => by
    rw [snapNew]
    by_cases hp : f.page_no ∈ seen
    · simpa [hp] using snapNew_page_not_seen fs seen
    · intro g hg
      rw [if_neg hp] at hg
      rcases List.mem_cons.mp hg with hg | hg
      · subst hg; exact hp
      · intro hs
        exact snapNew_page_not_seen fs (insert f.page_no seen) g hg
          (Finset.mem_insert_of_mem hs)

/-- Dedup: the written frames have pairwise distinct page numbers. -/
theorem snapNew_pages_nodup :
    ∀ (fs : List Frame) (seen : Finset Nat),
      ((snapNew seen fs).map Frame.page_no).Nodup
  | [], _ => by simp [snapNew]
  | f :: fs, seen => by
    rw [snapNew]
    by_cases hp : f.page_no ∈ seen
    · simpa [hp] using snapNew_pages_nodup fs seen
    · rw [if_neg hp, List.map_cons, List.nodup_cons]
      refine ⟨?_, snapNew_pages_nodup fs (insert f.page_no seen)⟩
      intro hmem
      rcases List.mem_map.mp hmem with ⟨g, hg, hgp⟩
      exact snapNew_page_not_seen fs (insert f.page_no seen) g hg
        (hgp ▸ Finset.mem_insert_self f.page_no seen)

/-- Every fresh page of the stream is represented among the written
frames. -/
theorem snapNew_covers :
    ∀ (fs : List Frame) (seen : Finset Nat),
      ∀ f ∈ fs, f.page_no ∉ seen →
        ∃ g ∈ snapNew seen fs, g.page_no = f.page_no
  | [], _ => by simp
  | f0 :: fs, seen => by
    intro f hf hfs
    rw [snapNew]
    by_cases hp : f0.page_no ∈ seen
    · rcases List.mem_cons.mp hf with hf | hf
      · subst hf; exact absurd hp hfs
      · simpa [hp] using snapNew_covers fs seen f hf hfs
    · rw [if_neg hp]
      by_cases hsame : f.page_no = f0.page_no
      · exact ⟨{ f0 with size_after := 0 }, List.mem_cons_self _ _, hsame.symm⟩
      · rcases List.mem_cons.mp hf with hf | hf
        · subst hf; exact absurd rfl hsame
        · have hfs' : f.page_no ∉ insert f0.page_no seen := by
            simp [Finset.mem_insert, hsame, hfs]
          rcases snapNew_covers fs (insert f0.page_no seen) f hf hfs' with
            ⟨g, hg, hgp⟩
          exact ⟨g, List.mem_cons_of_mem _ hg, hgp⟩

/-- On a strictly descending stream, every written frame is the zeroed copy
of a stream frame that carries the greatest `frame_no` among the stream
frames with its page. -/
theorem snapNew_mem_spec :
    ∀ (fs : List Frame) (seen : Finset Nat),
      List.Pairwise (fun f g => g.frame_no < f.frame_no) fs →
      ∀ g ∈ snapNew seen fs,
        ∃ f ∈ fs, g = { f with size_after := 0 } ∧
          ∀ f' ∈ fs, f'.page_no = f.page_no → f'.frame_no ≤ f.frame_no
  | [], _, _ => by simp [snapNew]
  | f0 :: fs, seen, hdec => by
    intro g hg
    rw [snapNew] at hg
    by_cases hp : f0.page_no ∈ seen
    · rw [if_pos hp] at hg
      rcases snapNew_mem_spec fs seen hdec.of_cons g hg with ⟨f, hf, hgf, hmax⟩
      refine ⟨f, List.mem_cons_of_mem _ hf, hgf, ?_⟩
      intro f' hf' hpage
      rcases List.mem_cons.mp hf' with hf' | hf'
      · subst hf'
        have : g.page_no ∉ seen := snapNew_page_not_seen fs seen g hg
        rw [hgf] at this
        exact absurd (hpage ▸ hp) this
      · exact hmax f' hf' hpage
    · rw [if_neg hp] at hg
      rcases List.mem_cons.mp hg with hg | hg
      · subst hg
        refine ⟨f0, List.mem_cons_self _ _, rfl, ?_⟩
        intro f' hf' hpage
        rcases List.mem_cons.mp hf' with hf' | hf'
        · subst hf'; exact le_refl _
        · exact le_of_lt (List.rel_of_pairwise_cons hdec hf')
      · rcases snapNew_mem_spec fs (insert f0.page_no seen) hdec.of_cons g hg
          with ⟨f, hf, hgf, hmax⟩
        refine ⟨f, List.mem_cons_of_mem _ hf, hgf, ?_⟩
        intro f' hf' hpage
        rcases List.mem_cons.mp hf' with hf' | hf'
        · subst hf'
          have : g.page_no ∉ insert f'.page_no seen :=
            snapNew_page_not_seen fs (insert f'.page_no seen) g hg
          rw [hgf] at this
          exact absurd (Finset.mem_insert_self _ _) (hpage ▸ this)
        · exact hmax f' hf' hpage

/-- The number of frames written is the number of fresh pages. -/
theorem snapNew_length :
    ∀ (fs : List Frame) (seen : Finset Nat),
      (snapNew seen fs).length = (framePages fs \ seen).card
  | [], seen => by simp [snapNew, framePages]
  | f :: fs, seen => by
    rw [snapNew, framePages_cons]
    by_cases hp : f.page_no ∈ seen
    · rw [if_pos hp, Finset.insert_sdiff_of_mem _ hp]
      exact snapNew_length fs seen
    · rw [if_neg hp, List.length_cons, snapNew_length fs (insert f.page_no seen)]
      have hset : insert f.page_no (framePages fs) \ seen =
          insert f.page_no (framePages fs \ insert f.page_no seen) := by
        ext x
        simp only [Finset.mem_insert, Finset.mem_sdiff]
        by_cases hx : x = f.page_no
        · simp [hx, hp]
        · simp [hx]
      rw [hset, Finset.card_insert_of_not_mem (by simp)]

/-! ### Folded minima and stream composition -/

theorem foldl_min_le_init :
    ∀ (l : List Nat) (init : Nat), l.foldl min init ≤ init
  | [], _ => le_refl _
  | x :: l, init =>
    le_trans (foldl_min_le_init l (min init x)) (min_le_left _ _)

theorem foldl_min_le_mem :
    ∀ (l : List Nat) (init x : Nat), x ∈ l → l.foldl min init ≤ x
  | [], _, _, hx => by cases hx
  | y :: l, init, x, hx => by
    rcases List.mem_cons.mp hx with h | h
    · subst h
      exact le_trans (foldl_min_le_init l _) (min_le_right _ _)
    · exact foldl_min_le_mem l (min init y) x h

theorem foldl_min_mem_or_init :
    ∀ (l : List Nat) (init : Nat),
      l.foldl min init = init ∨ l.foldl min init ∈ l
  | [], _ => Or.inl rfl
  | x :: l, init => by
    rw [List.foldl_cons]
    rcases le_total init x with hle | hle
    · rw [min_eq_left hle]
      rcases foldl_min_mem_or_init l init with h | h
      · exact Or.inl h
      · exact Or.inr (List.mem_cons_of_mem _ h)
    · rw [min_eq_right hle]
      rcases foldl_min_mem_or_init l x with h | h
      · exact Or.inr (by rw [h]; exact List.mem_cons_self x l)
      · exact Or.inr (List.mem_cons_of_mem _ h)

instance : IsTrans Nat (fun x y => y < x) :=
  ⟨fun _ _ _ h1 h2 => lt_trans h2 h1⟩

/-- Splitting an `append_frames` call over a concatenation. -/
theorem appendFrames_append :
    ∀ (l₁ l₂ : List Frame) (b : SnapshotBuilder),
      b.appendFrames (l₁ ++ l₂) =
        (b.appendFrames l₁).bind fun b' => b'.appendFrames l₂
  | [], l₂, b => by simp [SnapshotBuilder.appendFrames]
  | f :: l₁, l₂, b => by
    rw [List.cons_append, SnapshotBuilder.appendFrames,
      SnapshotBuilder.appendFrames]
    cases b.appendFrame f with
    | none => rfl
    | some b1 => exact appendFrames_append l₁ l₂ b1

/-- A sequence of `append_frames` calls behaves like one call on the
concatenated stream. -/
theorem appendMany_eq_join :
    ∀ (fss : List (List Frame)) (b : SnapshotBuilder),
      b.appendMany fss = b.appendFrames fss.flatten
  | [], b => by simp [SnapshotBuilder.appendMany, SnapshotBuilder.appendFrames]
  | l :: ls, b => by
    rw [SnapshotBuilder.appendMany, List.flatten_cons, appendFrames_append]
    cases h : b.appendFrames l with
    | none => rfl
    | some b1 => exact appendMany_eq_join ls b1

/-- Frames written by a possibly-failed builder run (empty on failure). -/
def writtenOf : Option SnapshotBuilder → List Frame
  | some b => b.written
  | none => []

/-! ### Claims C4, C5, C6, C8: the snapshot builder -/

/-- C6 fails as stated: a one-frame stream with `frame_no = u64::MAX` is
strictly decreasing, yet the assertion fires on it, because
`last_seen_frame_no` also starts at `u64::MAX` and the assertion is
strict. -/
theorem c6_counterexample :
    List.Pairwise (fun f g => g.frame_no < f.frame_no)
      ([[{ frame_no := U64_MAX, page_no := 1, size_after := 1 }]] :
        List (List Frame)).flatten ∧
    (SnapshotBuilder.new 0).appendMany
      [[{ frame_no := U64_MAX, page_no := 1, size_after := 1 }]] = none := by
  constructor
  · decide
  · decide

/-- C6 (amended): across any sequence of `append_frames` calls whose
concatenated frame numbers are strictly decreasing and strictly below
`u64::MAX`, the ordering assertion never fails, and the frames written to
the snapshot file appear in strictly decreasing `frame_no` order. -/
theorem c6_ordering_assertion_and_written (log_id : Nat)
    (fss : List (List Frame))
    (hdec : List.Pairwise (fun f g => g.frame_no < f.frame_no) fss.flatten)
    (hbound : ∀ f ∈ fss.flatten, f.frame_no < U64_MAX) :
    ((SnapshotBuilder.new log_id).appendMany fss).isSome ∧
    List.Pairwise (fun f g => g.frame_no < f.frame_no)
      (writtenOf ((SnapshotBuilder.new log_id).appendMany fss)) := by
  rw [appendMany_eq_join]
  have hpw : List.Pairwise (fun x y => y < x)
      (U64_MAX :: fss.flatten.map Frame.frame_no) := by
    rw [List.pairwise_cons]
    refine ⟨?_, ?_⟩
    · intro x hx
      rcases List.mem_map.mp hx with ⟨f, hf, rfl⟩
      exact hbound f hf
    · rw [List.pairwise_map]
      exact hdec
  have hchain : List.Chain (fun x y => y < x)
      (SnapshotBuilder.new log_id).last_seen_frame_no
      (fss.flatten.map Frame.frame_no) :=
    List.chain_iff_pairwise.mpr hpw
  have hsome :=
    (appendFrames_isSome_iff fss.flatten (SnapshotBuilder.new log_id)).mpr
      hchain
  refine ⟨hsome, ?_⟩
  obtain ⟨b', hb'⟩ := Option.isSome_iff_exists.mp hsome
  rw [hb']
  obtain ⟨_, _, hwritten, _, _, _⟩ := appendFrames_some_spec _ _ _ hb'
  show List.Pairwise _ b'.written
  rw [hwritten]
  have hmap : List.Pairwise (fun f g => g.frame_no < f.frame_no)
      (fss.flatten.map fun f => { f with size_after := 0 }) := by
    rw [List.pairwise_map]
    exact hdec
  have hpair := List.Pairwise.sublist
    (snapNew_sublist fss.flatten (SnapshotBuilder.new log_id).seen_pages) hmap
  simpa [SnapshotBuilder.new] using hpair

/-- Input streams for the C6 witness. -/
def c6fss : List (List Frame) :=
  [[{ frame_no := 5, page_no := 1, size_after := 3 }],
   [{ frame_no := 4, page_no := 2, size_after := 3 },
    { frame_no := 2, page_no := 1, size_after := 2 }]]

/-- C6 witness at a concrete pair of `append_frames` calls. -/
theorem c6_witness :
    (List.Pairwise (fun f g => g.frame_no < f.frame_no) c6fss.flatten ∧
      ∀ f ∈ c6fss.flatten, f.frame_no < U64_MAX) ∧
    ((SnapshotBuilder.new 7).appendMany c6fss).isSome ∧
    List.Pairwise (fun f g => g.frame_no < f.frame_no)
      (writtenOf ((SnapshotBuilder.new 7).appendMany c6fss)) :=
  ⟨⟨by decide, by decide⟩,
    c6_ordering_assertion_and_written 7 c6fss (by decide) (by decide)⟩

/-- C4: for a non-empty strictly decreasing stream accepted by the builder
with minimum frame number `a` and maximum `bmax`, the finished snapshot's
header has `start_frame_no = a`, `end_frame_no = bmax`, `frame_count` the
number of distinct pages, and `size_after` that of the frame with the
maximum `frame_no`. -/
theorem c4_snapshot_header (log_id : Nat) (fs : List Frame)
    (bld : SnapshotBuilder) (a bmax : Nat)
    (hrun : (SnapshotBuilder.new log_id).appendFrames fs = some bld)
    (hne : fs ≠ [])
    (hdec : List.Pairwise (fun f g => g.frame_no < f.frame_no) fs)
    (hamem : a ∈ fs.map Frame.frame_no)
    (hamin : ∀ f ∈ fs, a ≤ f.frame_no)
    (hbmem : bmax ∈ fs.map Frame.frame_no)
    (hbmax : ∀ f ∈ fs, f.frame_no ≤ bmax) :
    bld.finish.2.header.start_frame_no = a ∧
    bld.finish.2.header.end_frame_no = bmax ∧
    bld.finish.2.header.frame_count = (fs.map Frame.page_no).toFinset.card ∧
    ∀ f ∈ fs, f.frame_no = bmax →
      bld.finish.2.header.size_after = f.size_after := by
  obtain ⟨f0, rest, rfl⟩ : ∃ f0 rest, fs = f0 :: rest := by
    cases fs with
    | nil => exact absurd rfl hne
    | cons f0 rest => exact ⟨f0, rest, rfl⟩
  have hfin : bld.finish.2.header = bld.header := rfl
  rw [hfin]
  obtain ⟨_, _, _, hcount, hstart, _⟩ :=
    appendFrames_some_spec (f0 :: rest) _ bld hrun
  have hchain : List.Chain (fun x y => y < x) U64_MAX
      ((f0 :: rest).map Frame.frame_no) :=
    (appendFrames_isSome_iff (f0 :: rest) (SnapshotBuilder.new log_id)).mp
      (by rw [hrun]; rfl)
  have hub : ∀ x ∈ (f0 :: rest).map Frame.frame_no, x < U64_MAX :=
    fun x hx => (List.pairwise_cons.mp (List.chain_iff_pairwise.mp hchain)).1 x hx
  have hrest : ∀ g ∈ rest, g.frame_no < f0.frame_no := fun g hg =>
    List.rel_of_pairwise_cons hdec hg
  have hbmax0 : bmax = f0.frame_no := by
    rcases List.mem_map.mp hbmem with ⟨f, hf, hfb⟩
    rcases List.mem_cons.mp hf with hf | hf
    · rw [← hfb, hf]
    · have h1 := hrest f hf
      have h2 := hbmax f0 (List.mem_cons_self _ _)
      omega
  have hend := appendFrames_end_head f0 rest _ bld hrun (Nat.zero_le _) hrest
  refine ⟨?_, ?_, ?_, ?_⟩
  · rw [hstart]
    have hnewstart :
        (SnapshotBuilder.new log_id).header.start_frame_no = U64_MAX := rfl
    rw [hnewstart]
    have h1 : ((f0 :: rest).map Frame.frame_no).foldl min U64_MAX ≤ a :=
      foldl_min_le_mem _ _ _ hamem
    have h2 : a ≤ ((f0 :: rest).map Frame.frame_no).foldl min U64_MAX := by
      rcases foldl_min_mem_or_init ((f0 :: rest).map Frame.frame_no) U64_MAX
        with h | h
      · have ha := hub a hamem
        omega
      · rcases List.mem_map.mp h with ⟨f, hf, hfe⟩
        rw [← hfe]
        exact hamin f hf
    omega
  · rw [hend.1, hbmax0]
  · rw [hcount]
    have hz : (SnapshotBuilder.new log_id).header.frame_count = 0 := rfl
    have hs : (SnapshotBuilder.new log_id).seen_pages = ∅ := rfl
    rw [hz, Nat.zero_add, hs, snapNew_length, Finset.sdiff_empty]
    rfl
  · intro f hf hfb
    rcases List.mem_cons.mp hf with hf | hf
    · rw [hend.2, hf]
    · have := hrest f hf
      omega

/-- Input stream for the C4 witness. -/
def c4fs : List Frame :=
  [{ frame_no := 9, page_no := 1, size_after := 4 },
   { frame_no := 8, page_no := 2, size_after := 4 },
   { frame_no := 7, page_no := 1, size_after := 4 }]

/-- Builder state reached by the C4 witness stream. -/
def c4bld : SnapshotBuilder :=
  { seen_pages := {2, 1}
    header :=
      { log_id := 5, start_frame_no := 7, end_frame_no := 9, frame_count := 2
        size_after := 4 }
    written :=
      [{ frame_no := 9, page_no := 1, size_after := 0 },
       { frame_no := 8, page_no := 2, size_after := 0 }]
    last_seen_frame_no := 7 }

/-- C4 witness at a concrete stream. -/
theorem c4_witness :
    ((SnapshotBuilder.new 5).appendFrames c4fs = some c4bld ∧
      c4fs ≠ [] ∧
      List.Pairwise (fun f g => g.frame_no < f.frame_no) c4fs ∧
      7 ∈ c4fs.map Frame.frame_no ∧ (∀ f ∈ c4fs, 7 ≤ f.frame_no) ∧
      9 ∈ c4fs.map Frame.frame_no ∧ ∀ f ∈ c4fs, f.frame_no ≤ 9) ∧
    (c4bld.finish.2.header.start_frame_no = 7 ∧
      c4bld.finish.2.header.end_frame_no = 9 ∧
      c4bld.finish.2.header.frame_count =
        (c4fs.map Frame.page_no).toFinset.card ∧
      ∀ f ∈ c4fs, f.frame_no = 9 →
        c4bld.finish.2.header.size_after = f.size_after) :=
  ⟨⟨by decide, by decide, by decide, by decide, by decide, by decide,
      by decide⟩,
    c4_snapshot_header 5 c4fs c4bld 7 9 (by decide) (by decide) (by decide)
      (by decide) (by decide) (by decide) (by decide)⟩

/-- C5: on a strictly decreasing accepted stream, the written frames have
pairwise distinct pages, each written frame is the zeroed copy of the
stream frame carrying the greatest `frame_no` for its page, every stream
page is represented, and `frame_count` counts the written frames. -/
theorem c5_dedup (log_id : Nat) (fs : List Frame) (bld : SnapshotBuilder)
    (hrun : (SnapshotBuilder.new log_id).appendFrames fs = some bld)
    (hdec : List.Pairwise (fun f g => g.frame_no < f.frame_no) fs) :
    (bld.written.map Frame.page_no).Nodup ∧
    bld.header.frame_count = bld.written.length ∧
    (∀ g ∈ bld.written, ∃ f ∈ fs, g = { f with size_after := 0 } ∧
      ∀ f' ∈ fs, f'.page_no = f.page_no → f'.frame_no ≤ f.frame_no) ∧
    (∀ f ∈ fs, ∃ g ∈ bld.written, g.page_no = f.page_no) := by
  obtain ⟨_, _, hwritten, hcount, _, _⟩ :=
    appendFrames_some_spec fs _ bld hrun
  have hw : bld.written = snapNew (∅ : Finset Nat) fs := by
    rw [hwritten]
    simp [SnapshotBuilder.new]
  have hc : bld.header.frame_count = (snapNew (∅ : Finset Nat) fs).length := by
    rw [hcount]
    have hz : (SnapshotBuilder.new log_id).header.frame_count = 0 := rfl
    have hs : (SnapshotBuilder.new log_id).seen_pages = ∅ := rfl
    rw [hz, hs, Nat.zero_add]
  refine ⟨?_, ?_, ?_, ?_⟩
  · rw [hw]
    exact snapNew_pages_nodup fs ∅
  · rw [hc, hw]
  · rw [hw]
    exact snapNew_mem_spec fs ∅ hdec
  · intro f hf
    rw [hw]
    exact snapNew_covers fs ∅ f hf (Finset.not_mem_empty _)

/-- Input stream for the C5 witness. -/
def c5fs : List Frame :=
  [{ frame_no := 6, page_no := 3, size_after := 2 },
   { frame_no := 5, page_no := 4, size_after := 2 },
   { frame_no := 4, page_no := 3, size_after := 1 }]

/-- Builder state reached by the C5 witness stream. -/
def c5bld : SnapshotBuilder :=
  { seen_pages := {4, 3}
    header :=
      { log_id := 1, start_frame_no := 4, end_frame_no := 6, frame_count := 2
        size_after := 2 }
    written :=
      [{ frame_no := 6, page_no := 3, size_after := 0 },
       { frame_no := 5, page_no := 4, size_after := 0 }]
    last_seen_frame_no := 4 }

/-- C5 witness at a concrete stream. -/
theorem c5_witness :
    ((SnapshotBuilder.new 1).appendFrames c5fs = some c5bld ∧
      List.Pairwise (fun f g => g.frame_no < f.frame_no) c5fs) ∧
    ((c5bld.written.map Frame.page_no).Nodup ∧
      c5bld.header.frame_count = c5bld.written.length ∧
      (∀ g ∈ c5bld.written, ∃ f ∈ c5fs, g = { f with size_after := 0 } ∧
        ∀ f' ∈ c5fs, f'.page_no = f.page_no → f'.frame_no ≤ f.frame_no) ∧
      ∀ f ∈ c5fs, ∃ g ∈ c5bld.written, g.page_no = f.page_no) :=
  ⟨⟨by decide, by decide⟩, c5_dedup 1 c5fs c5bld (by decide) (by decide)⟩

/-- C8 fails as stated: the empty stream is accepted by `append_frames`,
yet the finished header keeps `start_frame_no = u64::MAX > 0 =
end_frame_no`; and on the stream `[(2, page 1), (1, page 1)]` the header's
`start_frame_no` is `1`, the minimum frame *processed*, while the only
frame written has `frame_no = 2`. -/
theorem c8_counterexample :
    ((SnapshotBuilder.new 0).appendFrames [] = some (SnapshotBuilder.new 0) ∧
      ¬ (SnapshotBuilder.new 0).finish.2.header.start_frame_no ≤
          (SnapshotBuilder.new 0).finish.2.header.end_frame_no) ∧
    (((SnapshotBuilder.new 0).appendFrames
        [{ frame_no := 2, page_no := 1, size_after := 5 },
         { frame_no := 1, page_no := 1, size_after := 7 }]).map
        (fun b => (b.finish.2.header.start_frame_no,
          b.finish.2.frames.map Frame.frame_no)) = some (1, [2]) ∧
      (1 : Nat) ∉ ([2] : List Nat)) := by
  refine ⟨⟨by decide, by decide⟩, by decide, by decide⟩

/-- C8 (amended): for every snapshot produced from a *non-empty* accepted
stream, the finalized header satisfies `start_frame_no ≤ end_frame_no`;
the two fields are the minimum and maximum frame number *appended*, and
`end_frame_no` is also the maximum frame number actually written (the
frame with the greatest number is always written, while the minimum
appended frame may be deduplicated away).  For the empty stream the header
keeps its initial sentinels `start_frame_no = u64::MAX`,
`end_frame_no = 0`. -/
theorem c8_start_le_end (log_id : Nat) (fs : List Frame)
    (bld : SnapshotBuilder)
    (hrun : (SnapshotBuilder.new log_id).appendFrames fs = some bld)
    (hne : fs ≠ []) :
    (bld.finish.2.header.start_frame_no ≤
        bld.finish.2.header.end_frame_no ∧
      bld.finish.2.header.start_frame_no ∈ fs.map Frame.frame_no ∧
      (∀ f ∈ fs, bld.finish.2.header.start_frame_no ≤ f.frame_no) ∧
      bld.finish.2.header.end_frame_no ∈ fs.map Frame.frame_no ∧
      (∀ f ∈ fs, f.frame_no ≤ bld.finish.2.header.end_frame_no) ∧
      bld.finish.2.header.end_frame_no ∈
        bld.finish.2.frames.map Frame.frame_no ∧
      (∀ g ∈ bld.finish.2.frames,
        g.frame_no ≤ bld.finish.2.header.end_frame_no)) ∧
    (SnapshotBuilder.new log_id).finish.2.header.start_frame_no = U64_MAX ∧
    (SnapshotBuilder.new log_id).finish.2.header.end_frame_no = 0 := by
  obtain ⟨f0, rest, rfl⟩ : ∃ f0 rest, fs = f0 :: rest := by
    cases fs with
    | nil => exact absurd rfl hne
    | cons f0 rest => exact ⟨f0, rest, rfl⟩
  have hfinh : bld.finish.2.header = bld.header := rfl
  have hfinf : bld.finish.2.frames = bld.written := rfl
  rw [hfinh, hfinf]
  obtain ⟨_, _, hwritten, _, hstart, _⟩ :=
    appendFrames_some_spec (f0 :: rest) _ bld hrun
  have hchain : List.Chain (fun x y => y < x) U64_MAX
      ((f0 :: rest).map Frame.frame_no) :=
    (appendFrames_isSome_iff (f0 :: rest) (SnapshotBuilder.new log_id)).mp
      (by rw [hrun]; rfl)
  have hpw := List.chain_iff_pairwise.mp hchain
  have hub : ∀ x ∈ (f0 :: rest).map Frame.frame_no, x < U64_MAX :=
    fun x hx => (List.pairwise_cons.mp hpw).1 x hx
  have hdec : List.Pairwise (fun f g => g.frame_no < f.frame_no)
      (f0 :: rest) := by
    have := (List.pairwise_cons.mp hpw).2
    rw [List.pairwise_map] at this
    exact this
  have hrest : ∀ g ∈ rest, g.frame_no < f0.frame_no := fun g hg =>
    List.rel_of_pairwise_cons hdec hg
  have hend := appendFrames_end_head f0 rest _ bld hrun (Nat.zero_le _) hrest
  have hnewstart :
      (SnapshotBuilder.new log_id).header.start_frame_no = U64_MAX := rfl
  have hstart' : bld.header.start_frame_no =
      ((f0 :: rest).map Frame.frame_no).foldl min U64_MAX := by
    rw [hstart, hnewstart]
  have hsle : ∀ f ∈ f0 :: rest,
      bld.header.start_frame_no ≤ f.frame_no := by
    intro f hf
    rw [hstart']
    exact foldl_min_le_mem _ _ _ (List.mem_map_of_mem Frame.frame_no hf)
  have hsmem : bld.header.start_frame_no ∈
      (f0 :: rest).map Frame.frame_no := by
    rw [hstart']
    rcases foldl_min_mem_or_init ((f0 :: rest).map Frame.frame_no) U64_MAX
      with h | h
    · have h1 : ((f0 :: rest).map Frame.frame_no).foldl min U64_MAX ≤
          f0.frame_no :=
        foldl_min_le_mem _ _ _
          (List.mem_map_of_mem Frame.frame_no (List.mem_cons_self _ _))
      have h2 := hub f0.frame_no
        (List.mem_map_of_mem Frame.frame_no (List.mem_cons_self _ _))
      omega
    · exact h
  have hfle : ∀ f ∈ f0 :: rest, f.frame_no ≤ bld.header.end_frame_no := by
    intro f hf
    rw [hend.1]
    rcases List.mem_cons.mp hf with hf | hf
    · rw [hf]
    · exact le_of_lt (hrest f hf)
  have hwr : bld.written =
      { f0 with size_after := 0 } ::
        snapNew (insert f0.page_no ∅) rest := by
    rw [hwritten]
    have hs : (SnapshotBuilder.new log_id).seen_pages = ∅ := rfl
    have hw0 : (SnapshotBuilder.new log_id).written = [] := rfl
    rw [hs, hw0, List.nil_append, snapNew, if_neg (Finset.not_mem_empty _)]
  refine ⟨⟨?_, hsmem, hsle, ?_, hfle, ?_, ?_⟩, rfl, rfl⟩
  · exact le_trans (hsle f0 (List.mem_cons_self _ _))
      (hfle f0 (List.mem_cons_self _ _))
  · rw [hend.1]
    exact List.mem_map_of_mem Frame.frame_no (List.mem_cons_self _ _)
  · rw [hwr, hend.1, List.map_cons]
    exact List.mem_cons_self _ _
  · intro g hg
    have hsub : List.Sublist bld.written
        ((f0 :: rest).map fun f => { f with size_after := 0 }) := by
      have := snapNew_sublist (f0 :: rest)
        ((SnapshotBuilder.new log_id).seen_pages)
      rw [hwritten]
      simpa [SnapshotBuilder.new] using this
    have hg2 := hsub.subset hg
    rcases List.mem_map.mp hg2 with ⟨f, hf, hfg⟩
    rw [← hfg]
    exact hfle f hf

/-- Input stream for the C8 witness. -/
def c8fs : List Frame :=
  [{ frame_no := 9, page_no := 1, size_after := 4 },
   { frame_no := 8, page_no := 2, size_after := 4 },
   { frame_no := 6, page_no := 1, size_after := 3 }]

/-- Builder state reached by the C8 witness stream. -/
def c8bld : SnapshotBuilder :=
  { seen_pages := {2, 1}
    header :=
      { log_id := 3, start_frame_no := 6, end_frame_no := 9, frame_count := 2
        size_after := 4 }
    written :=
      [{ frame_no := 9, page_no := 1, size_after := 0 },
       { frame_no := 8, page_no := 2, size_after := 0 }]
    last_seen_frame_no := 6 }

/-- C8 witness at a concrete stream. -/
theorem c8_witness :
    ((SnapshotBuilder.new 3).appendFrames c8fs = some c8bld ∧ c8fs ≠ []) ∧
    ((c8bld.finish.2.header.start_frame_no ≤
        c8bld.finish.2.header.end_frame_no ∧
      c8bld.finish.2.header.start_frame_no ∈ c8fs.map Frame.frame_no ∧
      (∀ f ∈ c8fs, c8bld.finish.2.header.start_frame_no ≤ f.frame_no) ∧
      c8bld.finish.2.header.end_frame_no ∈ c8fs.map Frame.frame_no ∧
      (∀ f ∈ c8fs, f.frame_no ≤ c8bld.finish.2.header.end_frame_no) ∧
      c8bld.finish.2.header.end_frame_no ∈
        c8bld.finish.2.frames.map Frame.frame_no ∧
      (∀ g ∈ c8bld.finish.2.frames,
        g.frame_no ≤ c8bld.finish.2.header.end_frame_no)) ∧
    (SnapshotBuilder.new 3).finish.2.header.start_frame_no = U64_MAX ∧
    (SnapshotBuilder.new 3).finish.2.header.end_frame_no = 0) :=
  ⟨⟨by decide, by decide⟩, c8_start_le_end 3 c8fs c8bld (by decide) (by decide)⟩

/-! ### Claim C7: `should_compact` -/

/-- Folding the wrapping addition equals the mathematical sum reduced
modulo `2^64`. -/
theorem foldl_u64_add_eq :
    ∀ (l : List Nat) (acc : Nat), acc < U64_MOD →
      l.foldl u64_add acc = (acc + l.sum) % U64_MOD
  | [], acc, hacc => by
    simp [Nat.mod_eq_of_lt hacc]
  | x :: l, acc, _ => by
    rw [List.foldl_cons,
      foldl_u64_add_eq l (u64_add acc x)
        (Nat.mod_lt _ (by unfold U64_MOD; omega)),
      u64_add, Nat.mod_add_mod, List.sum_cons]
    ring_nf

/-- C7 fails as stated: two registered snapshots of `2^63` frames each and
`db_page_count = 1` make the `u64` sum wrap to `0`, so `should_compact`
returns `false` although the mathematical sum `2^64` exceeds
`2 * db_page_count`. -/
theorem c7_counterexample :
    should_compact [(['a'], 2 ^ 63), (['b'], 2 ^ 63)] 1 = false ∧
    ((([(['a'], 2 ^ 63), (['b'], 2 ^ 63)] : List (List Char × Nat)).map
        fun p => p.2).sum ≥ SNAPHOT_SPACE_AMPLIFICATION_FACTOR * 1 ∨
      ([(['a'], 2 ^ 63), (['b'], 2 ^ 63)] : List (List Char × Nat)).length >
        MAX_SNAPSHOT_NUMBER) := by
  constructor
  · decide
  · left
    decide

/-- C7 (amended): `should_compact` is true exactly when the `u64`
(wrapping, i.e. modulo `2^64`) sum of the frame counts is at least
`2 * db_page_count`, or more than 32 snapshots are registered; this
coincides with the claim whenever the mathematical sum stays below
`2^64`. -/
theorem c7_should_compact_iff (snapshots : List (List Char × Nat))
    (db_page_count : Nat) (hp : db_page_count < 2 ^ 32) :
    should_compact snapshots db_page_count = true ↔
      ((snapshots.map fun p => p.2).sum % U64_MOD ≥
          SNAPHOT_SPACE_AMPLIFICATION_FACTOR * db_page_count ∨
        snapshots.length > MAX_SNAPSHOT_NUMBER) := by
  have hfold := foldl_u64_add_eq ((snapshots.map fun p => p.2)) 0
    (by unfold U64_MOD; omega)
  have hmul : u64_mul SNAPHOT_SPACE_AMPLIFICATION_FACTOR db_page_count =
      SNAPHOT_SPACE_AMPLIFICATION_FACTOR * db_page_count := by
    unfold u64_mul SNAPHOT_SPACE_AMPLIFICATION_FACTOR U64_MOD
    apply Nat.mod_eq_of_lt
    omega
  simp only [should_compact, hfold, Nat.zero_add, hmul, Bool.or_eq_true,
    decide_eq_true_eq]

/-- C7 witness at a concrete registry. -/
theorem c7_witness :
    (1 : Nat) < 2 ^ 32 ∧
    (should_compact [(['s'], 3)] 1 = true ↔
      ((([(['s'], 3)] : List (List Char × Nat)).map fun p => p.2).sum %
          U64_MOD ≥ SNAPHOT_SPACE_AMPLIFICATION_FACTOR * 1 ∨
        ([(['s'], 3)] : List (List Char × Nat)).length >
          MAX_SNAPSHOT_NUMBER)) :=
  ⟨by decide, c7_should_compact_iff [(['s'], 3)] 1 (by decide)⟩

/-! ### Claims C3 and C10: `parse_snapshot_name` -/

/-- C3 fails on the code: the name
`aaaaaaaa-aaaa-aaaa-aaaa-aaaaaaaaaaaa--0.snap` matches the regex with an
*empty* second capture (`\d*` accepts the empty string), and
`captures.get(2).as_str().parse::<u64>().unwrap()` then panics, so
`parse_snapshot_name` is not total on ill-formed names. -/
theorem c3_parse_panics :
    parse_snapshot_name
      ("aaaaaaaa-aaaa-aaaa-aaaa-aaaaaaaaaaaa--0.snap").toList =
      ParseResult.panic := by
  decide

/-- Character set of every canonical snapshot name. -/
def canonicalChars : List Char := hexChars ++ ("-.snp").toList

theorem hexDigitChar_mem (n : Nat) : hexDigitChar n ∈ hexChars := by
  unfold hexDigitChar
  rw [List.getD_eq_getElem?_getD]
  cases h : hexChars[n]? with
  | none => decide
  | some c =>
    rw [Option.getD_some]
    exact List.getElem?_mem h

theorem decDigitChar_mem (n : Nat) : decDigitChar n ∈ digitChars := by
  unfold decDigitChar
  rw [List.getD_eq_getElem?_getD]
  cases h : digitChars[n]? with
  | none => decide
  | some c =>
    rw [Option.getD_some]
    exact List.getElem?_mem h

theorem decCharsAux_mem :
    ∀ (fuel n : Nat) (acc : List Char),
      (∀ c ∈ acc, c ∈ digitChars) →
      ∀ c ∈ decCharsAux fuel n acc, c ∈ digitChars
  | 0, _, acc, hacc => hacc
  | fuel + 1, n, acc, hacc => by
    rw [decCharsAux]
    split_ifs
    · intro c hc
      rcases List.mem_cons.mp hc with hc | hc
      · rw [hc]; exact decDigitChar_mem n
      · exact hacc c hc
    · refine decCharsAux_mem fuel (n / 10) _ ?_
      intro c hc
      rcases List.mem_cons.mp hc with hc | hc
      · rw [hc]; exact decDigitChar_mem (n % 10)
      · exact hacc c hc

theorem natToDecChars_mem (n : Nat) :
    ∀ c ∈ natToDecChars n, c ∈ digitChars :=
  decCharsAux_mem (n + 1) n [] (by simp)

theorem digit_mem_hex {c : Char} (h : c ∈ digitChars) : c ∈ hexChars :=
  List.mem_append_left _ h

theorem uuidChars_mem (u : Nat) :
    ∀ c ∈ uuidChars u, c ∈ hexChars ∨ c = '-' := by
  intro c hc
  unfold uuidChars at hc
  rcases List.mem_append.mp hc with h | h
  · rcases List.mem_append.mp h with h | h
    · rcases List.mem_append.mp h with h | h
      · rcases List.mem_append.mp h with h | h
        · rcases List.mem_map.mp h with ⟨i, -, rfl⟩
          exact Or.inl (hexDigitChar_mem _)
        · rcases List.mem_cons.mp h with h | h
          · exact Or.inr h
          · rcases List.mem_map.mp h with ⟨i, -, rfl⟩
            exact Or.inl (hexDigitChar_mem _)
      · rcases List.mem_cons.mp h with h | h
        · exact Or.inr h
        · rcases List.mem_map.mp h with ⟨i, -, rfl⟩
          exact Or.inl (hexDigitChar_mem _)
    · rcases List.mem_cons.mp h with h | h
      · exact Or.inr h
      · rcases List.mem_map.mp h with ⟨i, -, rfl⟩
        exact Or.inl (hexDigitChar_mem _)
  · rcases List.mem_cons.mp h with h | h
    · exact Or.inr h
    · rcases List.mem_map.mp h with ⟨i, -, rfl⟩
      exact Or.inl (hexDigitChar_mem _)

theorem format_snapshot_name_mem (u a b : Nat) :
    ∀ c ∈ format_snapshot_name u a b, c ∈ canonicalChars := by
  intro c hc
  have hhex : ∀ d : Char, d ∈ hexChars → d ∈ canonicalChars := fun d hd =>
    List.mem_append_left _ hd
  unfold format_snapshot_name at hc
  rcases List.mem_append.mp hc with h | h
  · rcases List.mem_append.mp h with h | h
    · rcases List.mem_append.mp h with h | h
      · rcases uuidChars_mem u c h with h2 | h2
        · exact hhex c h2
        · subst h2
          decide
      · rcases List.mem_cons.mp h with h | h
        · subst h
          decide
        · exact hhex c (digit_mem_hex (natToDecChars_mem a c h))
    · rcases List.mem_cons.mp h with h | h
      · subst h
        decide
      · exact hhex c (digit_mem_hex (natToDecChars_mem b c h))
  · have hsnap : (".snap").toList = ['.', 's', 'n', 'a', 'p'] := rfl
    rw [hsnap] at h
    fin_cases h <;> decide

theorem format_snapshot_name_has_dot (u a b : Nat) :
    '.' ∈ format_snapshot_name u a b := by
  have hsnap : (".snap").toList = ['.', 's', 'n', 'a', 'p'] := rfl
  simp [format_snapshot_name, hsnap]

/-- Non-canonical name with an extra character before the UUID. -/
def c10w1 : List Char :=
  ("z00000000-0000-0000-0000-000000000000-5-6.snap").toList

/-- Non-canonical name whose character before `snap` is `X`, not a dot. -/
def c10w2 : List Char :=
  ("00000000-0000-0000-0000-000000000000-7-8Xsnap").toList

/-- Non-canonical name whose UUID part is uppercase (matched by `\w`,
accepted case-insensitively by `Uuid::from_str`, but never emitted by the
lowercase formatter). -/
def c10w3 : List Char :=
  ("AAAAAAAA-AAAA-AAAA-AAAA-AAAAAAAAAAAA-1-2.snap").toList

/-- Non-canonical name with trailing characters after `.snap`. -/
def c10w4 : List Char :=
  ("00000000-0000-0000-0000-000000000000-1-2.snapXX").toList

/-- C10: the matching pattern is unanchored, its final dot is an unescaped
wildcard, and its UUID part uses `\w` rather than lowercase hex, so
`parse_snapshot_name` returns `Some(..)` on each of these four names even
though none of them is produced by `format_snapshot_name` (the canonical
form `{log_id_uuid}-{start}-{end}.snap`). -/
theorem c10_lax_parse :
    (parse_snapshot_name c10w1 = ParseResult.ok 0 5 6 ∧
      ∀ u a b, format_snapshot_name u a b ≠ c10w1) ∧
    (parse_snapshot_name c10w2 = ParseResult.ok 0 7 8 ∧
      ∀ u a b, format_snapshot_name u a b ≠ c10w2) ∧
    (parse_snapshot_name c10w3 =
        ParseResult.ok 226854911280625642308916404954512140970 1 2 ∧
      ∀ u a b, format_snapshot_name u a b ≠ c10w3) ∧
    (parse_snapshot_name c10w4 = ParseResult.ok 0 1 2 ∧
      ∀ u a b, format_snapshot_name u a b ≠ c10w4) := by
  refine ⟨⟨by decide, ?_⟩, ⟨by decide, ?_⟩, ⟨by decide, ?_⟩, ⟨by decide, ?_⟩⟩
  · intro u a b h
    have hz : ('z' : Char) ∈ c10w1 := by decide
    rw [← h] at hz
    exact absurd (format_snapshot_name_mem u a b 'z' hz) (by decide)
  · intro u a b h
    have hdot := format_snapshot_name_has_dot u a b
    rw [h] at hdot
    exact absurd hdot (by decide)
  · intro u a b h
    have hz : ('A' : Char) ∈ c10w3 := by decide
    rw [← h] at hz
    exact absurd (format_snapshot_name_mem u a b 'A' hz) (by decide)
  · intro u a b h
    have hz : ('X' : Char) ∈ c10w4 := by decide
    rw [← h] at hz
    exact absurd (format_snapshot_name_mem u a b 'X' hz) (by decide)

/-! ### Claim C2: `find_snapshot_file` -/

/-- A name parses well-formed and covers `fno`. -/
def coversName (fno : Nat) (n : List Char) : Prop :=
  ∃ u s e, parse_snapshot_name n = ParseResult.ok u s e ∧ s ≤ fno ∧ fno ≤ e

/-- The scan loop returns the first covering name when no entry panics the
parser and some entry covers. -/
theorem findLoop_finds :
    ∀ (names : List (List Char)) (fno : Nat),
      (∀ n ∈ names, parse_snapshot_name n ≠ ParseResult.panic) →
      (∃ n0 ∈ names, coversName fno n0) →
      ∃ m, findLoop names fno = FsResult.ok (some m) ∧ m ∈ names ∧
        coversName fno m
  | [], fno, _, hex => by
    rcases hex with ⟨n, hn, _⟩
    cases hn
  | n :: rest, fno, hnp, hex => by
    cases hp : parse_snapshot_name n with
    | panic => exact absurd hp (hnp n (List.mem_cons_self _ _))
    | noMatch =>
      have hex' : ∃ n0 ∈ rest, coversName fno n0 := by
        rcases hex with ⟨n0, hn0, hcov⟩
        rcases List.mem_cons.mp hn0 with rfl | hn0
        · rcases hcov with ⟨u, s, e, hps, -, -⟩
          rw [hp] at hps
          cases hps
        · exact ⟨n0, hn0, hcov⟩
      obtain ⟨m, heq, hm, hcov⟩ := findLoop_finds rest fno
        (fun x hx => hnp x (List.mem_cons_of_mem _ hx)) hex'
      refine ⟨m, ?_, List.mem_cons_of_mem _ hm, hcov⟩
      rw [findLoop, hp]
      exact heq
    | ok u1 s1 e1 =>
      by_cases hcv : s1 ≤ fno ∧ fno ≤ e1
      · refine ⟨n, ?_, List.mem_cons_self _ _, u1, s1, e1, hp, hcv.1, hcv.2⟩
        simp only [findLoop, hp, if_pos hcv]
      · have hex' : ∃ n0 ∈ rest, coversName fno n0 := by
          rcases hex with ⟨n0, hn0, hcov⟩
          rcases List.mem_cons.mp hn0 with rfl | hn0
          · rcases hcov with ⟨u, s, e, hps, hc1, hc2⟩
            rw [hp] at hps
            cases hps
            exact absurd ⟨hc1, hc2⟩ hcv
          · exact ⟨n0, hn0, hcov⟩
        obtain ⟨m, heq, hm, hcov⟩ := findLoop_finds rest fno
          (fun x hx => hnp x (List.mem_cons_of_mem _ hx)) hex'
        refine ⟨m, ?_, List.mem_cons_of_mem _ hm, hcov⟩
        simp only [findLoop, hp, if_neg hcv]
        exact heq

/-- C2 fails as stated: when the snapshot directory does not exist,
`snapshot_list`'s `read_dir` error propagates through
`find_snapshot_file`, which returns that error, not `Ok(None)`. -/
theorem c2_counterexample :
    find_snapshot_file none 0 = FsResult.ioError ∧
    find_snapshot_file none 0 ≠ FsResult.ok none := by
  exact ⟨rfl, by decide⟩

/-- C2 (amended): when the snapshot directory does not exist,
`find_snapshot_file` propagates the I/O error (and `snapshot_list` yields
that error rather than no names); when the directory exists, no entry
drives the parser into its `unwrap` panics, and some well-formed name
covers `frame_no`, then a covering snapshot (the first such entry) is
returned. -/
theorem c2_find_snapshot_file (names : List (List Char)) (fno : Nat)
    (n0 : List Char) (hmem : n0 ∈ names)
    (hcov : coversName fno n0)
    (hnopanic : ∀ n ∈ names, parse_snapshot_name n ≠ ParseResult.panic) :
    (find_snapshot_file none fno = FsResult.ioError ∧
      snapshot_list none = Except.error ()) ∧
    ∃ m, find_snapshot_file (some names) fno = FsResult.ok (some m) ∧
      m ∈ names ∧ coversName fno m := by
  refine ⟨⟨rfl, rfl⟩, ?_⟩
  obtain ⟨m, heq, hm, hcovm⟩ :=
    findLoop_finds names fno hnopanic ⟨n0, hmem, hcov⟩
  exact ⟨m, heq, hm, hcovm⟩

/-- Concrete directory listing for the C2 witness. -/
def c2names : List (List Char) :=
  [("hello.txt").toList,
   ("00000000-0000-0000-0000-000000000000-0-9.snap").toList,
   ("00000000-0000-0000-0000-000000000000-10-19.snap").toList]

/-- C2 witness at a concrete directory and frame number. -/
theorem c2_witness :
    (("00000000-0000-0000-0000-000000000000-10-19.snap").toList ∈ c2names ∧
      coversName 12
        ("00000000-0000-0000-0000-000000000000-10-19.snap").toList ∧
      (∀ n ∈ c2names, parse_snapshot_name n ≠ ParseResult.panic)) ∧
    (find_snapshot_file none 12 = FsResult.ioError ∧
      snapshot_list none = Except.error ()) ∧
    ∃ m, find_snapshot_file (some c2names) 12 = FsResult.ok (some m) ∧
      m ∈ c2names ∧ coversName 12 m :=
  ⟨⟨by decide, ⟨0, 10, 19, by decide, by decide, by decide⟩, by decide⟩,
    c2_find_snapshot_file c2names 12
      ("00000000-0000-0000-0000-000000000000-10-19.snap").toList
      (by decide) ⟨0, 10, 19, by decide, by decide, by decide⟩ (by decide)⟩

/-! ### Claim C9: `pending_snapshots_list` -/

/-- Entries kept for compaction by the scan, in directory order. -/
def keptOf (hdrSize : Nat) : List DirEntry → List (List Char × Nat)
  | [] => []
  | e :: es =>
    (if e.is_file ∧ e.size ≠ hdrSize then [(e.path, e.log_start_frame_no)]
     else []) ++ keptOf hdrSize es

/-- Paths deleted by the scan (empty log files), in directory order. -/
def removedOf (hdrSize : Nat) : List DirEntry → List (List Char)
  | [] => []
  | e :: es =>
    (if e.is_file ∧ e.size = hdrSize then [e.path] else []) ++
      removedOf hdrSize es

/-- Characterization of the directory scan fold. -/
theorem pending_scan_eq (hdrSize : Nat) :
    ∀ (entries : List DirEntry)
      (acc : List (List Char × Nat) × List (List Char)),
      entries.foldl
        (fun acc e =>
          if e.is_file then
            if e.size = hdrSize then (acc.1, acc.2 ++ [e.path])
            else (acc.1 ++ [(e.path, e.log_start_frame_no)], acc.2)
          else acc)
        acc =
      (acc.1 ++ keptOf hdrSize entries, acc.2 ++ removedOf hdrSize entries)
  | [], acc => by simp [keptOf, removedOf]
  | e :: es, acc => by
    rw [List.foldl_cons, pending_scan_eq hdrSize es, keptOf, removedOf]
    by_cases hf : e.is_file
    · by_cases hs : e.size = hdrSize
      · simp [hf, hs]
      · simp [hf, hs]
    · simp only [hf]
      have h1 : (e.is_file = true ∧ e.size ≠ hdrSize) = False := by
        simp [hf]
      have h2 : (e.is_file = true ∧ e.size = hdrSize) = False := by
        simp [hf]
      rw [if_neg (by simp [hf]), if_neg (by simp [hf])]
      simp

theorem keptOf_mem (hdrSize : Nat) :
    ∀ (entries : List DirEntry) (p : List Char) (n : Nat),
      (p, n) ∈ keptOf hdrSize entries ↔
        ∃ e ∈ entries, e.is_file ∧ e.size ≠ hdrSize ∧ e.path = p ∧
          e.log_start_frame_no = n
  | [], p, n => by simp [keptOf]
  | e :: es, p, n => by
    rw [keptOf, List.mem_append, keptOf_mem hdrSize es]
    constructor
    · intro h
      rcases h with h | ⟨e', he', h1, h2, h3, h4⟩
      · split_ifs at h with hc
        · rcases List.mem_singleton.mp h with h
          exact ⟨e, List.mem_cons_self _ _, hc.1, hc.2,
            (congrArg Prod.fst h).symm, (congrArg Prod.snd h).symm⟩
        · cases h
      · exact ⟨e', List.mem_cons_of_mem _ he', h1, h2, h3, h4⟩
    · intro ⟨e', he', h1, h2, h3, h4⟩
      rcases List.mem_cons.mp he' with rfl | he'
      · left
        rw [if_pos ⟨h1, h2⟩, h3, h4]
        exact List.mem_singleton.mpr rfl
      · exact Or.inr ⟨e', he', h1, h2, h3, h4⟩

theorem removedOf_mem (hdrSize : Nat) :
    ∀ (entries : List DirEntry) (p : List Char),
      p ∈ removedOf hdrSize entries ↔
        ∃ e ∈ entries, e.is_file ∧ e.size = hdrSize ∧ e.path = p
  | [], p => by simp [removedOf]
  | e :: es, p => by
    rw [removedOf, List.mem_append, removedOf_mem hdrSize es]
    constructor
    · intro h
      rcases h with h | ⟨e', he', h1, h2, h3⟩
      · split_ifs at h with hc
        · exact ⟨e, List.mem_cons_self _ _, hc.1, hc.2,
            (List.mem_singleton.mp h).symm⟩
        · cases h
      · exact ⟨e', List.mem_cons_of_mem _ he', h1, h2, h3⟩
    · intro ⟨e', he', h1, h2, h3⟩
      rcases List.mem_cons.mp he' with rfl | he'
      · left
        rw [if_pos ⟨h1, h2⟩, h3]
        exact List.mem_singleton.mpr rfl
      · exact Or.inr ⟨e', he', h1, h2, h3⟩

/-- C9: in the startup scan, a regular file whose size is exactly the log
header size is deleted and excluded from the pending list; every other
regular file is opened as a log and appears in the pending list with its
header's `start_frame_no`; the resulting list is sorted by
`start_frame_no` ascending. -/
theorem c9_pending_list (hdrSize : Nat) (entries : List DirEntry)
    (hnodup : (entries.map DirEntry.path).Nodup) :
    (∀ e ∈ entries, e.is_file = true → e.size = hdrSize →
      e.path ∈ (pending_snapshots_list hdrSize entries).2 ∧
      ∀ n, (e.path, n) ∉ (pending_snapshots_list hdrSize entries).1) ∧
    (∀ e ∈ entries, e.is_file = true → e.size ≠ hdrSize →
      (e.path, e.log_start_frame_no) ∈
        (pending_snapshots_list hdrSize entries).1 ∧
      e.path ∉ (pending_snapshots_list hdrSize entries).2) ∧
    List.Sorted byStartLe (pending_snapshots_list hdrSize entries).1 := by
  have hinj : ∀ e ∈ entries, ∀ e' ∈ entries, e.path = e'.path → e = e' :=
    fun e he e' he' hpp => List.inj_on_of_nodup_map hnodup he he' hpp
  have hdef : pending_snapshots_list hdrSize entries =
      (List.insertionSort byStartLe (keptOf hdrSize entries),
        removedOf hdrSize entries) := by
    unfold pending_snapshots_list
    rw [pending_scan_eq hdrSize entries ([], [])]
    simp
  have h1 : (pending_snapshots_list hdrSize entries).1 =
      List.insertionSort byStartLe (keptOf hdrSize entries) := by rw [hdef]
  have h2 : (pending_snapshots_list hdrSize entries).2 =
      removedOf hdrSize entries := by rw [hdef]
  simp only [h1, h2, List.mem_insertionSort]
  refine ⟨?_, ?_, List.sorted_insertionSort byStartLe _⟩
  · intro e he hf hs
    refine ⟨(removedOf_mem hdrSize entries e.path).mpr ⟨e, he, hf, hs, rfl⟩,
      ?_⟩
    intro n hn
    rcases (keptOf_mem hdrSize entries e.path n).mp hn with
      ⟨e', he', hf', hs', hp', -⟩
    have heq := hinj e' he' e he hp'
    rw [heq] at hs'
    exact hs' hs
  · intro e he hf hs
    refine ⟨(keptOf_mem hdrSize entries e.path
        e.log_start_frame_no).mpr ⟨e, he, hf, hs, rfl, rfl⟩, ?_⟩
    intro hr
    rcases (removedOf_mem hdrSize entries e.path).mp hr with
      ⟨e', he', hf', hs', hp'⟩
    have heq := hinj e' he' e he hp'
    rw [heq] at hs'
    exact hs hs'

/-- Concrete `to_compact/` directory for the C9 witness. -/
def c9entries : List DirEntry :=
  [⟨("b.log").toList, true, 100, 7⟩,
   ⟨("empty.log").toList, true, 32, 9⟩,
   ⟨("a.log").toList, true, 50, 3⟩,
   ⟨("subdir").toList, false, 32, 0⟩]

/-- C9 witness at a concrete directory. -/
theorem c9_witness :
    (c9entries.map DirEntry.path).Nodup ∧
    (∀ e ∈ c9entries, e.is_file = true → e.size = 32 →
      e.path ∈ (pending_snapshots_list 32 c9entries).2 ∧
      ∀ n, (e.path, n) ∉ (pending_snapshots_list 32 c9entries).1) ∧
    (∀ e ∈ c9entries, e.is_file = true → e.size ≠ 32 →
      (e.path, e.log_start_frame_no) ∈
        (pending_snapshots_list 32 c9entries).1 ∧
      e.path ∉ (pending_snapshots_list 32 c9entries).2) ∧
    List.Sorted byStartLe (pending_snapshots_list 32 c9entries).1 :=
  ⟨by decide, c9_pending_list 32 c9entries (by decide)⟩

/-! ### Claim C1: `merge_snapshots` -/

/-- Start frame number parsed from a registry entry's name. -/
def parsedStart (p : List Char × Nat) : Option Nat :=
  match parse_snapshot_name p.1 with
  | .ok _ s _ => some s
  | _ => none

/-- Once `size_after` is set, the merge loop keeps it. -/
theorem mergeLoop_keeps (store : List (List Char × SnapshotFile)) :
    ∀ (l : List (List Char × Nat)) (v : Nat) (b : SnapshotBuilder)
      (sa? : Option Nat) (b' : SnapshotBuilder),
      mergeLoop store l (some v) b = .ok (sa?, b') → sa? = some v
  | [], v, b, sa?, b', h => by
    cases h
    rfl
  | (n, c) :: rest, v, b, sa?, b', h => by
    rw [mergeLoop] at h
    cases hl : lookupStore store n with
    | none =>
      simp only [hl] at h
      cases h
    | some file =>
      simp only [hl] at h
      cases ha : b.appendFrames file.frames with
      | none =>
        simp only [ha] at h
        cases h
      | some b1 =>
        simp only [ha] at h
        exact mergeLoop_keeps store rest v b1 sa? b' h

/-- The merge loop leaves the builder's `log_id` unchanged. -/
theorem mergeLoop_log_id (store : List (List Char × SnapshotFile)) :
    ∀ (l : List (List Char × Nat)) (sa0 : Option Nat) (b : SnapshotBuilder)
      (sa? : Option Nat) (b' : SnapshotBuilder),
      mergeLoop store l sa0 b = .ok (sa?, b') →
      b'.header.log_id = b.header.log_id
  | [], _, b, sa?, b', h => by
    cases h
    rfl
  | (n, c) :: rest, sa0, b, sa?, b', h => by
    rw [mergeLoop] at h
    cases hl : lookupStore store n with
    | none =>
      simp only [hl] at h
      cases h
    | some file =>
      simp only [hl] at h
      cases ha : b.appendFrames file.frames with
      | none =>
        simp only [ha] at h
        cases h
      | some b1 =>
        simp only [ha] at h
        exact (mergeLoop_log_id store rest _ b1 sa? b' h).trans
          (appendFrames_some_spec file.frames b b1 ha).1

/-- The `size_after` recorded by the loop is that of the first snapshot
opened. -/
theorem mergeLoop_first (store : List (List Char × SnapshotFile))
    (n : List Char) (c : Nat) (rest : List (List Char × Nat))
    (b : SnapshotBuilder) (sa? : Option Nat) (b' : SnapshotBuilder)
    (h : mergeLoop store ((n, c) :: rest) none b = .ok (sa?, b')) :
    ∃ file, lookupStore store n = some file ∧
      sa? = some file.header.size_after := by
  rw [mergeLoop] at h
  cases hl : lookupStore store n with
  | none =>
    simp only [hl] at h
    cases h
  | some file =>
    simp only [hl] at h
    cases ha : b.appendFrames file.frames with
    | none =>
      simp only [ha] at h
      cases h
    | some b1 =>
      simp only [ha] at h
      exact ⟨file, rfl, mergeLoop_keeps store rest _ b1 sa? b' h⟩

/-- C1: for a non-empty registry S₁..Sₖ sorted ascending by the start
frame number parsed from the names, a successful merge produces exactly
one snapshot whose header and name carry `start_frame_no` parsed from S₁'s
name, `end_frame_no` parsed from Sₖ's name, and `size_after` from the
header of the newest input snapshot Sₖ; the trace renames the merged
snapshot first and only then removes each input file. -/
theorem c1_merge_snapshots (store : List (List Char × SnapshotFile))
    (snapshots : List (List Char × Nat)) (log_id : Nat)
    (firstp lastp : List Char × Nat) (u1 s1 e1 u2 s2 e2 : Nat)
    (res : (List Char × Nat) × SnapshotFile × List FsEvent)
    (hfirst : snapshots.head? = some firstp)
    (hlast : snapshots.getLast? = some lastp)
    (hsorted : List.Chain'
      (fun p q => ∃ x y, parsedStart p = some x ∧ parsedStart q = some y ∧
        x ≤ y) snapshots)
    (hpf : parse_snapshot_name firstp.1 = ParseResult.ok u1 s1 e1)
    (hpl : parse_snapshot_name lastp.1 = ParseResult.ok u2 s2 e2)
    (hrun : merge_snapshots store snapshots log_id = Except.ok res) :
    res.2.1.header.start_frame_no = s1 ∧
    res.2.1.header.end_frame_no = e2 ∧
    (∃ fileK, lookupStore store lastp.1 = some fileK ∧
      res.2.1.header.size_after = fileK.header.size_after) ∧
    res.1.1 = format_snapshot_name log_id s1 e2 ∧
    res.2.1.header.log_id = log_id ∧
    res.2.2 = FsEvent.rename res.1.1 ::
      snapshots.map (fun p => FsEvent.removeFile p.1) ∧
    (∀ p ∈ snapshots, FsEvent.removeFile p.1 ∈ res.2.2.tail) := by
  obtain ⟨first, rest, rfl⟩ : ∃ f r, snapshots = f :: r := by
    cases snapshots with
    | nil => cases hfirst
    | cons f r => exact ⟨f, r, rfl⟩
  have hfp : first = firstp := by
    rw [List.head?_cons, Option.some.injEq] at hfirst
    exact hfirst
  subst hfp
  have hgl : (first :: rest).getLastD first = lastp := by
    rw [List.getLastD_eq_getLast?, hlast, Option.getD_some]
  rw [merge_snapshots] at hrun
  cases hml : mergeLoop store (first :: rest).reverse none
      (SnapshotBuilder.new log_id) with
  | error e =>
    rw [hml] at hrun
    cases hrun
  | ok pr =>
    obtain ⟨sa?, b⟩ := pr
    rw [hml] at hrun
    rw [hgl] at hrun
    rw [hpf, hpl] at hrun
    cases sa? with
    | none =>
      simp only at hrun
      cases hrun
    | some sa =>
      simp only at hrun
      rw [Except.ok.injEq] at hrun
      subst hrun
      have hrev : (first :: rest).reverse.head? = some lastp := by
        rw [List.head?_reverse]
        exact hlast
      obtain ⟨tl, hrevd⟩ : ∃ tl, (first :: rest).reverse = lastp :: tl := by
        cases hr : (first :: rest).reverse with
        | nil =>
          rw [hr] at hrev
          cases hrev
        | cons p0 tl =>
          rw [hr, List.head?_cons, Option.some.injEq] at hrev
          exact ⟨tl, by rw [hrev]⟩
      obtain ⟨lp1, lp2⟩ := lastp
      rw [hrevd] at hml
      obtain ⟨fileK, hfk, hsa⟩ :=
        mergeLoop_first store lp1 lp2 tl _ _ _ hml
      rw [Option.some.injEq] at hsa
      have hlog : b.header.log_id = log_id :=
        mergeLoop_log_id store _ _ _ _ _ hml
      refine ⟨rfl, rfl, ⟨fileK, hfk, ?_⟩, ?_, ?_, rfl, ?_⟩
      · rw [← hsa]
        rfl
      · show format_snapshot_name b.header.log_id s1 e2 = _
        rw [hlog]
      · exact hlog
      · intro p hp
        show FsEvent.removeFile p.1 ∈
          (first :: rest).map fun q => FsEvent.removeFile q.1
        exact List.mem_map_of_mem _ hp

/-- Input names, files, store and registry for the C1 witness. -/
def c1name1 : List Char :=
  ("00000000-0000-0000-0000-000000000000-1-2.snap").toList

/-- Second (newest) input name for the C1 witness. -/
def c1name2 : List Char :=
  ("00000000-0000-0000-0000-000000000000-3-4.snap").toList

/-- Oldest input snapshot for the C1 witness. -/
def c1file1 : SnapshotFile :=
  ⟨⟨0, 1, 2, 2, 5⟩, [⟨2, 1, 5⟩, ⟨1, 2, 5⟩]⟩

/-- Newest input snapshot for the C1 witness. -/
def c1file2 : SnapshotFile :=
  ⟨⟨0, 3, 4, 2, 9⟩, [⟨4, 1, 9⟩, ⟨3, 3, 9⟩]⟩

/-- Snapshot directory contents for the C1 witness. -/
def c1store : List (List Char × SnapshotFile) :=
  [(c1name1, c1file1), (c1name2, c1file2)]

/-- Registry passed to the C1 witness merge. -/
def c1snaps : List (List Char × Nat) := [(c1name1, 2), (c1name2, 2)]

/-- Result of the C1 witness merge. -/
def c1res : (List Char × Nat) × SnapshotFile × List FsEvent :=
  ((format_snapshot_name 0 1 4, 3),
   ⟨⟨0, 1, 4, 3, 9⟩, [⟨4, 1, 0⟩, ⟨3, 3, 0⟩, ⟨1, 2, 0⟩]⟩,
   [FsEvent.rename (format_snapshot_name 0 1 4),
    FsEvent.removeFile c1name1, FsEvent.removeFile c1name2])

/-- C1 witness at a concrete two-snapshot merge. -/
theorem c1_witness :
    (c1snaps.head? = some (c1name1, 2) ∧
      c1snaps.getLast? = some (c1name2, 2) ∧
      List.Chain' (fun p q => ∃ x y, parsedStart p = some x ∧
        parsedStart q = some y ∧ x ≤ y) c1snaps ∧
      parse_snapshot_name c1name1 = ParseResult.ok 0 1 2 ∧
      parse_snapshot_name c1name2 = ParseResult.ok 0 3 4 ∧
      merge_snapshots c1store c1snaps 0 = Except.ok c1res) ∧
    (c1res.2.1.header.start_frame_no = 1 ∧
      c1res.2.1.header.end_frame_no = 4 ∧
      (∃ fileK, lookupStore c1store (c1name2, 2).1 = some fileK ∧
        c1res.2.1.header.size_after = fileK.header.size_after) ∧
      c1res.1.1 = format_snapshot_name 0 1 4 ∧
      c1res.2.1.header.log_id = 0 ∧
      c1res.2.2 = FsEvent.rename c1res.1.1 ::
        c1snaps.map (fun p => FsEvent.removeFile p.1) ∧
      ∀ p ∈ c1snaps, FsEvent.removeFile p.1 ∈ c1res.2.2.tail) :=
  ⟨⟨by decide, by decide,
      List.chain'_pair.mpr ⟨1, 3, by decide, by decide, by decide⟩,
      by decide, by decide, rfl⟩,
    c1_merge_snapshots c1store c1snaps 0 (c1name1, 2) (c1name2, 2)
      0 1 2 0 3 4 c1res (by decide) (by decide)
      (List.chain'_pair.mpr ⟨1, 3, by decide, by decide, by decide⟩)
      (by decide) (by decide) rfl⟩

/-- C10 witness: a concrete instantiation of the non-canonicality part. -/
theorem c10_witness : format_snapshot_name 0 5 6 ≠ c10w1 :=
  c10_lax_parse.1.2 0 5 6
